import Mathlib

/-!
Verification development for the clippy clipboard manager
(local log-structured storage engine in `storage.rs` and the
LWW-oplog sync engine in `sync.rs`), as a shallow embedding.

Rust strings are modelled as their UTF-8 byte sequences (`RStr`),
Rust `HashMap`s as association lists with key-replacing insertion,
machine integers as `Nat` (little-endian encoding takes values mod
2^width exactly as the `as u32` casts and fixed-width writes do),
and `chrono::DateTime<Utc>` instants as `Int`.
-/

/-- A Rust `String` / `&str`, modelled as its UTF-8 byte sequence. -/
abbrev RStr := List Nat

/-- Byte-wise lexicographic strict order on byte strings; this is exactly
the `Ord` instance Rust uses for `String` comparison. -/
def bytesLt : RStr → RStr → Bool
  | [], [] => false
  | [], _ :: _ => true
  | _ :: _, [] => false
  | a :: as, b :: bs => if a < b then true else if b < a then false else bytesLt as bs

/-- Association-list lookup: models `HashMap::get` / `contains_key`. -/
def alookup {A : Type} (k : RStr) : List (RStr × A) → Option A
  | [] => none
  | (k', v) :: rest => if k' = k then some v else alookup k rest

/-- Association-list insertion replacing an existing binding:
models `HashMap::insert`. -/
def ainsert {A : Type} (k : RStr) (v : A) : List (RStr × A) → List (RStr × A)
  | [] => [(k, v)]
  | (k', v') :: rest => if k' = k then (k, v) :: rest else (k', v') :: ainsert k v rest

/-- Association-list removal: models `HashMap::remove`. -/
def aremove {A : Type} (k : RStr) : List (RStr × A) → List (RStr × A)
  | [] => []
  | (k', v') :: rest => if k' = k then aremove k rest else (k', v') :: aremove k rest

/-- Little-endian encoding of `n` into `w` bytes (values taken mod `2 ^ (8 * w)`,
exactly like Rust's `to_le_bytes` on a fixed-width integer). -/
def encodeLe : Nat → Nat → List Nat
  | _, 0 => []
  | n, w + 1 => n % 256 :: encodeLe (n / 256) w

/-- Little-endian decoding of a byte list: models `uXX::from_le_bytes`. -/
def decodeLe : List Nat → Nat
  | [] => 0
  | b :: rest => b + 256 * decodeLe rest

/-- Read exactly `n` bytes from the front of `l`, models a `read_exact`
into an `n`-byte buffer: fails when fewer than `n` bytes remain. -/
def takeN (n : Nat) (l : List Nat) : Option (List Nat × List Nat) :=
  if l.length < n then none else some (l.take n, l.drop n)

/-- Is `b` a UTF-8 continuation byte (`0x80..=0xBF`)? -/
def contB (b : Nat) : Bool := 128 ≤ b && b < 192

/-- UTF-8 validity of a byte sequence (no overlong forms, no surrogates,
max scalar U+10FFFF): models the check done by `String::from_utf8`. -/
def utf8Valid : List Nat → Bool
  | [] => true
  | b :: l =>
    if b < 128 then utf8Valid l
    else if b < 194 then false
    else if b < 224 then
      match l with
      | b1 :: l1 => contB b1 && utf8Valid l1
      | [] => false
    else if b < 240 then
      match l with
      | b1 :: b2 :: l2 =>
        (if b = 224 then 160 ≤ b1 && b1 < 192
         else if b = 237 then 128 ≤ b1 && b1 < 160
         else contB b1) && contB b2 && utf8Valid l2
      | _ => false
    else if b < 245 then
      match l with
      | b1 :: b2 :: b3 :: l3 =>
        (if b = 240 then 144 ≤ b1 && b1 < 192
         else if b = 244 then 128 ≤ b1 && b1 < 144
         else contB b1) && contB b2 && contB b3 && utf8Valid l3
      | _ => false
    else false

namespace Storage

/-- Model of `FileTypeInfo` from `storage.rs`. -/
structure FileTypeInfo where
  path : RStr
  file_type : RStr
  mime_type : RStr
  category : RStr
deriving DecidableEq

/-- Model of `ClipboardItem` from `storage.rs` (strings as UTF-8 byte lists,
`timestamp` a `u64` of seconds). -/
structure ClipboardItem where
  id : RStr
  content : RStr
  timestamp : Nat
  item_type : RStr
  size : Option Nat
  file_paths : Option (List RStr)
  file_types : Option (List FileTypeInfo)
deriving DecidableEq

/-- The on-disk operation tag of `storage.rs`. -/
inductive Operation where
  | insert
  | delete
deriving DecidableEq

/-- The `u8` value written for each operation (`Operation as u8`). -/
def opTag : Operation → Nat
  | .insert => 1
  | .delete => 2

/-- Model of `StorageRecord` from `storage.rs`:
`data` is `Some` for Insert records and `None` for Delete records. -/
structure StorageRecord where
  operation : Operation
  timestamp : Nat
  item_id : RStr
  data : Option ClipboardItem
deriving DecidableEq

/-- Model of `StorageEngine::write_record_to_writer_static` (also the body of
`write_record`): the framed little-endian byte encoding of one record.
`jser` stands for `serde_json::to_string` on the payload; the length
fields are written as `u32` casts, hence mod `2 ^ 32` via `encodeLe`. -/
def write_record (jser : ClipboardItem → List Nat) (r : StorageRecord) : List Nat :=
  opTag r.operation :: encodeLe r.timestamp 8 ++ encodeLe r.item_id.length 4 ++ r.item_id ++
    (match r.data with
     | some d => encodeLe (jser d).length 4 ++ jser d
     | none => encodeLe 0 4)

/-- Result of reading one record: `ok` on success with the remaining
bytes, `err` when a `read_exact`, UTF-8 or JSON step fails (a recoverable
`Err` in the Rust code), and `fatal` when `Operation::from` hits a tag
byte other than 1 or 2 — that `panic!` is not an `Err` and unwinds. -/
inductive ReadResult where
  | ok (rec : StorageRecord) (rest : List Nat)
  | err
  | fatal
deriving DecidableEq

/-- Model of `StorageEngine::read_record`: decode one framed record from the front
of `bytes`. `jdes` stands for `serde_json::from_str::<ClipboardItem>`
applied to the payload bytes. -/
def read_record (jdes : List Nat → Option ClipboardItem) (bytes : List Nat) : ReadResult :=
  match bytes with
  | [] => .err
  | tag :: r0 =>
    if tag = 1 ∨ tag = 2 then
      let op := if tag = 1 then Operation.insert else Operation.delete
      match takeN 8 r0 with
      | none => .err
      | some (tsb, r1) =>
        match takeN 4 r1 with
        | none => .err
        | some (lenb, r2) =>
          match takeN (decodeLe lenb) r2 with
          | none => .err
          | some (idb, r3) =>
            if utf8Valid idb then
              match takeN 4 r3 with
              | none => .err
              | some (dlenb, r4) =>
                if decodeLe dlenb > 0 then
                  match takeN (decodeLe dlenb) r4 with
                  | none => .err
                  | some (db, r5) =>
                    if utf8Valid db then
                      match jdes db with
                      | some item => .ok ⟨op, decodeLe tsb, idb, some item⟩ r5
                      | none => .err
                    else .err
                else .ok ⟨op, decodeLe tsb, idb, none⟩ r4
            else .err
    else .fatal

/-- One step of `StorageEngine::recover`'s replay loop on the pair
(index, deleted_items): Insert records are applied only when the id
is not tombstoned; Delete records tombstone the id and drop it from
the index. -/
def recStep (st : List (RStr × ClipboardItem) × List (RStr × Nat)) (r : StorageRecord) :
    List (RStr × ClipboardItem) × List (RStr × Nat) :=
  match r.operation with
  | .insert =>
    match r.data with
    | some d => if alookup r.item_id st.2 = none then (ainsert r.item_id d st.1, st.2) else st
    | none => st
  | .delete => (aremove r.item_id st.1, ainsert r.item_id r.timestamp st.2)

/-- Model of `StorageEngine::recover` at the record level: replay an
already-decoded list of records from empty structures. -/
def recover_records (recs : List StorageRecord) :
    List (RStr × ClipboardItem) × List (RStr × Nat) :=
  recs.foldl recStep ([], [])

/-- The loop of `StorageEngine::recover` over raw log bytes. `none`
models the process aborting in a `panic!`; `some st` models the loop
breaking at a decode `Err` or EOF and returning normally. The `fuel`
argument only bounds the iteration count; every successful
`read_record` consumes at least one byte, so `bytes.length + 1`
iterations always suffice, and on the (unreachable) exhaustion of fuel
the state so far is returned. -/
def recoverLoop (jdes : List Nat → Option ClipboardItem) (fuel : Nat) (bytes : List Nat)
    (st : List (RStr × ClipboardItem) × List (RStr × Nat)) :
    Option (List (RStr × ClipboardItem) × List (RStr × Nat)) :=
  match fuel with
  | 0 => some st
  | fuel + 1 =>
    match read_record jdes bytes with
    | .ok r rest => recoverLoop jdes fuel rest (recStep st r)
    | .err => some st
    | .fatal => none

/-- Model of `StorageEngine::recover` over the raw bytes of `clipboard.log`,
starting from an empty index and tombstone set. -/
def recover (jdes : List Nat → Option ClipboardItem) (bytes : List Nat) :
    Option (List (RStr × ClipboardItem) × List (RStr × Nat)) :=
  recoverLoop jdes (bytes.length + 1) bytes ([], [])

/-- The state a `StorageEngine` maintains: the in-memory index and
tombstone map plus the sequence of records appended to the log file
(the log is modelled at the record level; `write_record` is the byte
encoding of each record). -/
structure StorageEngine where
  index : List (RStr × ClipboardItem)
  deleted_items : List (RStr × Nat)
  log : List StorageRecord
deriving DecidableEq

/-- Model of `StorageEngine::insert`: append an Insert record (`ts` models the
wall-clock `SystemTime::now()` seconds), update the index, and remove
the id from `deleted_items`. -/
def insert (st : StorageEngine) (item : ClipboardItem) (ts : Nat) : StorageEngine :=
  { index := ainsert item.id item st.index
    deleted_items := aremove item.id st.deleted_items
    log := st.log ++ [⟨.insert, ts, item.id, some item⟩] }

/-- Model of `StorageEngine::delete`: append a Delete record, drop the id from
the index, and tombstone it with the deletion timestamp. -/
def delete (st : StorageEngine) (item_id : RStr) (ts : Nat) : StorageEngine :=
  { index := aremove item_id st.index
    deleted_items := ainsert item_id ts st.deleted_items
    log := st.log ++ [⟨.delete, ts, item_id, none⟩] }

/-- Stable insertion (descending by `timestamp`) used to model the
stable `sort_by(|a, b| b.timestamp.cmp(&a.timestamp))` of `get_all`. -/
def insertDesc (x : ClipboardItem) : List ClipboardItem → List ClipboardItem
  | [] => [x]
  | y :: ys => if y.timestamp < x.timestamp then x :: y :: ys else y :: insertDesc x ys

/-- Model of `StorageEngine::get_all`: the index's values sorted by timestamp
descending (newest first). -/
def get_all (st : StorageEngine) : List ClipboardItem :=
  (st.index.map Prod.snd).foldl (fun acc x => insertDesc x acc) []

/-- Model of `StorageEngine::compact`: the log is rewritten to one Insert record
per live item (record timestamp and id taken from the item), the
tombstone set is cleared, and the index is untouched. -/
def compact (st : StorageEngine) : StorageEngine :=
  { index := st.index
    deleted_items := []
    log := st.index.map (fun p => ⟨.insert, p.2.timestamp, p.2.id, some p.2⟩) }

/-- One runtime call against the engine, with the wall-clock timestamp
the call would observe. -/
inductive StCall where
  | ins (item : ClipboardItem) (ts : Nat)
  | del (id : RStr) (ts : Nat)
deriving DecidableEq

/-- Execute one call. -/
def runCall (st : StorageEngine) : StCall → StorageEngine
  | .ins item ts => insert st item ts
  | .del id ts => delete st id ts

/-- Execute a call sequence. -/
def runCalls (st : StorageEngine) (cs : List StCall) : StorageEngine :=
  cs.foldl runCall st

/-- No insert call in the sequence targets an id that is tombstoned at
the moment the call runs (i.e. no insert reuses a previously deleted,
never re-inserted id). -/
def okFrom (st : StorageEngine) : List StCall → Bool
  | [] => true
  | .ins item ts :: rest =>
    (alookup item.id st.deleted_items = none : Bool) && okFrom (insert st item ts) rest
  | .del id ts :: rest => okFrom (delete st id ts) rest

end Storage

namespace Sync

/-- Model of `ItemMetadata` from `sync.rs`. -/
structure ItemMetadata where
  source_device : RStr
  source_app : Option RStr
  content_hash : Option RStr
deriving DecidableEq

/-- Model of `SyncClipboardItem` from `sync.rs`; `created_at` is a
`DateTime<Utc>` instant modelled as an `Int` point on the time line. -/
structure SyncClipboardItem where
  id : RStr
  content_type : RStr
  content : RStr
  created_at : Int
  metadata : ItemMetadata
deriving DecidableEq

/-- Model of `OpType` from `sync.rs`. -/
inductive OpType where
  | add
  | delete
deriving DecidableEq

/-- Model of `Operation` from `sync.rs`: an LWW-oplog entry.
`payload` is `Some` for ADD operations and `None` for DELETE. -/
structure Operation where
  op_id : RStr
  op_type : OpType
  target_id : RStr
  timestamp : Int
  device_id : RStr
  payload : Option SyncClipboardItem
deriving DecidableEq

/-- Model of `Snapshot` from `sync.rs`. -/
structure Snapshot where
  items : List SyncClipboardItem
  snapshot_timestamp : Int
  last_op_timestamp : Int
  device_id : RStr
deriving DecidableEq

/-- Model of `SyncState` from `sync.rs`: the in-memory items map, the watermark
of the last synced operation timestamp, and the pending upload queue. -/
structure SyncState where
  items : List (RStr × SyncClipboardItem)
  last_sync_timestamp : Option Int
  pending_ops : List Operation
deriving DecidableEq

/-- The remote object store surface the sync engine consults: the
(optional) snapshot reachable through `snapshots/latest.json` and the
operations stored under the `oplog/` prefix (listing order is the
store's, unspecified). -/
structure Remote where
  snapshot : Option Snapshot
  oplog : List Operation
deriving DecidableEq

/-- The items-map transition of one operation inside
`SyncEngine::apply_operations`: ADD inserts when the target is absent
and otherwise replaces exactly when the incoming payload's
`created_at` is `>=` the existing item's; DELETE removes exactly when
the target is present and the op's `timestamp` is `>=` the existing
item's `created_at`. -/
def applyOpItems (items : List (RStr × SyncClipboardItem)) (op : Operation) :
    List (RStr × SyncClipboardItem) :=
  match op.op_type with
  | .add =>
    match op.payload with
    | some item =>
      match alookup op.target_id items with
      | some existing =>
        if existing.created_at ≤ item.created_at then ainsert op.target_id item items else items
      | none => ainsert op.target_id item items
    | none => items
  | .delete =>
    match alookup op.target_id items with
    | some existing =>
      if existing.created_at ≤ op.timestamp then aremove op.target_id items else items
    | none => items

/-- The `latest_timestamp` bookkeeping of `apply_operations`:
`if latest.is_none() || op.timestamp > latest.unwrap() { latest = Some(op.timestamp) }`. -/
def bumpTs (latest : Option Int) (op : Operation) : Option Int :=
  match latest with
  | none => some op.timestamp
  | some t => if t < op.timestamp then some op.timestamp else some t

/-- One operation applied to the full `SyncState`. -/
def applyOpFull (st : SyncState) (op : Operation) : SyncState :=
  { st with
    items := applyOpItems st.items op
    last_sync_timestamp := bumpTs st.last_sync_timestamp op }

/-- Model of `SyncEngine::apply_operations`: fold the batch over the state,
updating the items map (LWW) and the last-sync watermark. -/
def apply_operations (st : SyncState) (ops : List Operation) : SyncState :=
  ops.foldl applyOpFull st

/-- The comparator of `fetch_operations_since`:
`a.timestamp.cmp(&b.timestamp).then_with(|| a.device_id.cmp(&b.device_id))`
is not `Greater`, i.e. `(timestamp, device_id)` of `a` is `<=` that of `b`. -/
def opLeB (a b : Operation) : Bool :=
  if a.timestamp < b.timestamp then true
  else if b.timestamp < a.timestamp then false
  else !(bytesLt b.device_id a.device_id)

/-- Stable insertion for `opLeB`. -/
def insOp (x : Operation) : List Operation → List Operation
  | [] => [x]
  | y :: ys => if opLeB y x then y :: insOp x ys else x :: y :: ys

/-- Stable sort by `(timestamp, device_id)` ascending, modelling the
stable `Vec::sort_by` at the end of `fetch_operations_since`. -/
def sortOps (l : List Operation) : List Operation :=
  l.foldl (fun acc x => insOp x acc) []

/-- Model of `SyncEngine::fetch_operations_since`: read every op under `oplog/`,
keep those with `timestamp > since` (all of them when `since` is
`None`), and sort ascending by `(timestamp, device_id)`. -/
def fetch_operations_since (oplog : List Operation) (since : Option Int) : List Operation :=
  sortOps (oplog.filter fun op =>
    match since with
    | some t => decide (t < op.timestamp)
    | none => true)

/-- Model of `SyncEngine::incremental_sync`: fetch the new operations and apply
them; an empty batch leaves the state untouched. -/
def incremental_sync (remote : Remote) (st : SyncState) : SyncState :=
  let ops := fetch_operations_since remote.oplog st.last_sync_timestamp
  if ops.isEmpty then st else apply_operations st ops

/-- Applying a loaded snapshot in `SyncEngine::initial_sync`: clear the
items map, insert every snapshot item, and set the watermark to the
snapshot's `last_op_timestamp`. A missing snapshot (`NotFound` on
`snapshots/latest.json`) leaves the state untouched. -/
def loadSnapshotStep (remote : Remote) (st : SyncState) : SyncState :=
  match remote.snapshot with
  | some snap =>
    { st with
      items := snap.items.foldl (fun m it => ainsert it.id it m) []
      last_sync_timestamp := some snap.last_op_timestamp }
  | none => st

/-- Model of `SyncEngine::initial_sync`: load the latest snapshot, apply it,
then pull the incremental tail. -/
def initial_sync (remote : Remote) (st : SyncState) : SyncState :=
  incremental_sync remote (loadSnapshotStep remote st)

/-- Model of `SyncEngine::sync`: run `initial_sync` exactly when
`last_sync_timestamp` is `None`, otherwise only the incremental pull.
The boolean records whether this call read `snapshots/latest.json`
(`load_latest_snapshot` performs that read unconditionally on the
initial path, found or not). -/
def sync (remote : Remote) (st : SyncState) : SyncState × Bool :=
  if st.last_sync_timestamp = none then (initial_sync remote st, true)
  else (incremental_sync remote st, false)

end Sync

namespace Sync

/-- Key order: `a` precedes-or-equals `b` in the `(timestamp, device_id)` order the
spec sorts by (non-strict: key of `a` is no greater than key of `b`). -/
def keyLe (a b : Operation) : Prop :=
  a.timestamp < b.timestamp ∨
    (a.timestamp = b.timestamp ∧ (a.device_id = b.device_id ∨ bytesLt a.device_id b.device_id = true))

/-- Strict `(timestamp, device_id)` order on operations. -/
def keyLt (a b : Operation) : Prop :=
  a.timestamp < b.timestamp ∨
    (a.timestamp = b.timestamp ∧ bytesLt a.device_id b.device_id = true)

instance : DecidableRel keyLe := fun a b => by unfold keyLe; infer_instance

instance : DecidableRel keyLt := fun a b => by unfold keyLt; infer_instance

/-- The list is in ascending `(timestamp, device_id)` order. -/
def sortedOps (l : List Operation) : Prop := l.Pairwise keyLe

instance (l : List Operation) : Decidable (sortedOps l) := by unfold sortedOps; infer_instance

/-- No two distinct operations of the list share the same
`(timestamp, device_id)` sort key. -/
def distinctKeys (l : List Operation) : Prop :=
  l.Pairwise fun a b => ¬(a.timestamp = b.timestamp ∧ a.device_id = b.device_id)

instance (l : List Operation) : Decidable (distinctKeys l) := by unfold distinctKeys; infer_instance

end Sync

section Fixtures

/-- A storage engine state with empty index, tombstones and log. -/
def emptyEngine : Storage.StorageEngine := ⟨[], [], []⟩

/-- A sync state with no items, no watermark and no pending ops. -/
def emptySyncState : Sync.SyncState := ⟨[], none, []⟩

/-- A remote with no snapshot and an empty oplog. -/
def remoteEmpty : Sync.Remote := ⟨none, []⟩

/-- Sync item with id "a", content "X", created_at 5. -/
def itemA : Sync.SyncClipboardItem := ⟨[97], [116], [88], 5, ⟨[100], none, none⟩⟩

/-- Sync item with id "a", content "Y", created_at 5 (ties `itemA`). -/
def itemB : Sync.SyncClipboardItem := ⟨[97], [116], [89], 5, ⟨[101], none, none⟩⟩

/-- Sync item with id "b", content "Z", created_at 3. -/
def itemC : Sync.SyncClipboardItem := ⟨[98], [116], [90], 3, ⟨[100], none, none⟩⟩

/-- A sync state holding only `itemA` under its id. -/
def stateA : Sync.SyncState := ⟨[([97], itemA)], none, []⟩

/-- A sync state whose watermark is already set. -/
def stateSynced : Sync.SyncState := ⟨[([97], itemA)], some 3, []⟩

/-- DELETE op for id "a" at timestamp 12 from device "d". -/
def opDel12 : Sync.Operation := ⟨[111, 49], .delete, [97], 12, [100], none⟩

/-- DELETE op for id "b" at timestamp 10 from device "d". -/
def opDelB10 : Sync.Operation := ⟨[111, 50], .delete, [98], 10, [100], none⟩

/-- ADD op re-adding id "b" with payload `itemC` (created_at 3 < 10). -/
def opAddB : Sync.Operation := ⟨[111, 51], .add, [98], 11, [100], some itemC⟩

/-- ADD op targeting id "a" with payload `itemB`, tying `itemA` on created_at. -/
def opAddTie : Sync.Operation := ⟨[111, 52], .add, [97], 7, [100], some itemB⟩

/-- Two ADD ops to the same target with identical `(timestamp, device_id)`
sort keys but different payloads. -/
def opColl1 : Sync.Operation := ⟨[97], .add, [116], 0, [100], some ⟨[116], [116], [49], 0, ⟨[100], none, none⟩⟩⟩

/-- Same sort key as `opColl1`, different op_id and payload. -/
def opColl2 : Sync.Operation := ⟨[98], .add, [116], 0, [100], some ⟨[116], [116], [50], 0, ⟨[100], none, none⟩⟩⟩

/-- ADD op at timestamp 1, device "d". -/
def opT1 : Sync.Operation := ⟨[99], .add, [117], 1, [100], some ⟨[117], [116], [51], 1, ⟨[100], none, none⟩⟩⟩

/-- ADD op at timestamp 2, device "d". -/
def opT2 : Sync.Operation := ⟨[102], .add, [118], 2, [100], some ⟨[118], [116], [52], 2, ⟨[100], none, none⟩⟩⟩

/-- Local clipboard item with id "a", timestamp 1. -/
def cItem1 : Storage.ClipboardItem := ⟨[97], [88], 1, [116], none, none, none⟩

/-- Local clipboard item with id "a", timestamp 3 (a re-insert of "a"). -/
def cItem3 : Storage.ClipboardItem := ⟨[97], [89], 3, [116], none, none, none⟩

/-- Local clipboard item with id "b", timestamp 2. -/
def cItem2 : Storage.ClipboardItem := ⟨[98], [90], 2, [116], none, none, none⟩

/-- Insert "a", delete "a", then insert "a" again. -/
def callsReinsert : List Storage.StCall := [.ins cItem1 1, .del [97] 2, .ins cItem3 3]

/-- Insert "a", insert "b", delete "a": no insert reuses a deleted id. -/
def callsOk : List Storage.StCall := [.ins cItem1 1, .ins cItem2 2, .del [97] 3]

/-- An engine state holding `cItem1` and `cItem2` live with a stale tombstone. -/
def engineTwo : Storage.StorageEngine :=
  ⟨[([97], cItem1), ([98], cItem2)], [([99], 9)],
   [⟨.insert, 1, [97], some cItem1⟩, ⟨.insert, 2, [98], some cItem2⟩, ⟨.delete, 9, [99], none⟩]⟩

/-- A payload serializer stub used to instantiate the codec at a point. -/
def jserW : Storage.ClipboardItem → List Nat := fun _ => [48]

/-- The matching deserializer stub: returns `cItem1` on any input. -/
def jdesW : List Nat → Option Storage.ClipboardItem := fun _ => some cItem1

/-- A concrete Insert record for the codec round-trip. -/
def recW : Storage.StorageRecord := ⟨.insert, 7, [104], some cItem1⟩

end Fixtures

/-! General lemmas about the modelling helpers. -/

theorem bytesLt_asymm : ∀ (x y : RStr), bytesLt x y = true → bytesLt y x = true → False
  | [], [], h1, _ => by simp [bytesLt] at h1
  | [], _ :: _, _, h2 => by simp [bytesLt] at h2
  | _ :: _, [], h1, _ => by simp [bytesLt] at h1
  | a :: as, b :: bs, h1, h2 => by
    simp only [bytesLt] at h1 h2
    by_cases hab : a < b
    · rw [if_neg (Nat.lt_asymm hab), if_pos hab] at h2
      exact Bool.false_ne_true h2
    · by_cases hba : b < a
      · rw [if_neg hab, if_pos hba] at h1
        exact Bool.false_ne_true h1
      · rw [if_neg hab, if_neg hba] at h1
        rw [if_neg hba, if_neg hab] at h2
        exact bytesLt_asymm as bs h1 h2

theorem alookup_ainsert {A : Type} (k id : RStr) (v : A) (l : List (RStr × A)) :
    alookup id (ainsert k v l) = if k = id then some v else alookup id l := by
  induction l with
  | nil => by_cases h : k = id <;> simp [ainsert, alookup, h]
  | cons p rest ih =>
    obtain ⟨k', v'⟩ := p
    by_cases h1 : k' = k
    · subst h1
      by_cases h2 : k' = id <;> simp [ainsert, alookup, h2, ih]
    · by_cases h2 : k' = id
      · subst h2
        have : ¬ k = k' := fun h => h1 h.symm
        simp [ainsert, alookup, h1, this]
      · simp [ainsert, alookup, h1, h2, ih]

theorem alookup_aremove {A : Type} (k id : RStr) (l : List (RStr × A)) :
    alookup id (aremove k l) = if k = id then none else alookup id l := by
  induction l with
  | nil => by_cases h : k = id <;> simp [aremove, alookup, h]
  | cons p rest ih =>
    obtain ⟨k', v'⟩ := p
    by_cases h1 : k' = k
    · subst h1
      by_cases h2 : k' = id
      · subst h2
        simpa [aremove, alookup] using ih
      · simp [aremove, alookup, h2, ih]
    · by_cases h2 : k' = id
      · subst h2
        have : ¬ k = k' := fun h => h1 h.symm
        simp [aremove, alookup, h1, this]
      · simp [aremove, alookup, h1, h2, ih]

theorem aremove_of_absent {A : Type} (k : RStr) (l : List (RStr × A))
    (h : alookup k l = none) : aremove k l = l := by
  induction l with
  | nil => rfl
  | cons p rest ih =>
    obtain ⟨k', v'⟩ := p
    simp only [alookup] at h
    by_cases h1 : k' = k
    · simp [h1] at h
    · simp only [aremove, if_neg h1]
      rw [ih (by simpa [h1] using h)]

theorem encodeLe_length (n w : Nat) : (encodeLe n w).length = w := by
  induction w generalizing n with
  | zero => rfl
  | succ w ih => simp [encodeLe, ih]

theorem decodeLe_encodeLe (n w : Nat) (h : n < 2 ^ (8 * w)) :
    decodeLe (encodeLe n w) = n := by
  induction w generalizing n with
  | zero => simp at h; simp [h, encodeLe, decodeLe]
  | succ w ih =>
    have hdiv : n / 256 < 2 ^ (8 * w) := by
      rw [Nat.div_lt_iff_lt_mul (by norm_num : 0 < 256)]
      calc n < 2 ^ (8 * (w + 1)) := h
        _ = 2 ^ (8 * w) * 256 := by ring
    simp only [encodeLe, decodeLe, ih (n / 256) hdiv]
    omega

theorem takeN_append (a rest : List Nat) : takeN a.length (a ++ rest) = some (a, rest) := by
  simp [takeN, List.take_left, List.drop_left]

/-- C5: a Delete operation removes `items[target_id]` iff the target is
present and the op's timestamp is `>=` the existing item's `created_at`;
a delete older than the item leaves it present (and untouched). -/
theorem delete_op_lww (st : Sync.SyncState) (op : Sync.Operation) (ex : Sync.SyncClipboardItem)
    (hop : op.op_type = .delete)
    (hex : alookup op.target_id st.items = some ex) :
    alookup op.target_id (Sync.applyOpFull st op).items =
      if ex.created_at ≤ op.timestamp then none else some ex := by
  simp only [Sync.applyOpFull, Sync.applyOpItems, hop, hex]
  by_cases h : ex.created_at ≤ op.timestamp
  · simp [h, alookup_aremove]
  · simp [h, hex]

/-- Witness for `delete_op_lww` at a concrete state and delete op. -/
theorem delete_op_lww_witness :
    opDel12.op_type = Sync.OpType.delete ∧
      alookup opDel12.target_id stateA.items = some itemA ∧
      alookup opDel12.target_id (Sync.applyOpFull stateA opDel12).items =
        (if itemA.created_at ≤ opDel12.timestamp then none else some itemA) :=
  ⟨rfl, by decide, delete_op_lww stateA opDel12 itemA rfl (by decide)⟩

/-- C2 counterexample: `itemA` and the incoming payload `itemB` tie on
`created_at`, yet `apply_operations` stores the incoming `itemB`,
not the existing `itemA` the claim says is kept. -/
theorem add_tie_keeps_incoming :
    itemB.created_at = itemA.created_at ∧
      alookup [97] stateA.items = some itemA ∧
      alookup [97] (Sync.apply_operations stateA [opAddTie]).items = some itemB ∧
      itemB ≠ itemA := by
  refine ⟨rfl, by decide, by decide, by decide⟩

/-- C2 amended: an Add on an already-present id keeps the incoming
payload exactly when its `created_at` is greater than or equal to the
existing item's (so on a tie the incoming payload wins and the
existing item is overwritten). -/
theorem add_conflict_resolution (st : Sync.SyncState) (op : Sync.Operation)
    (item existing : Sync.SyncClipboardItem)
    (hop : op.op_type = .add)
    (hpay : op.payload = some item)
    (hex : alookup op.target_id st.items = some existing) :
    alookup op.target_id (Sync.applyOpFull st op).items =
      some (if existing.created_at ≤ item.created_at then item else existing) := by
  simp only [Sync.applyOpFull, Sync.applyOpItems, hop, hpay, hex]
  by_cases h : existing.created_at ≤ item.created_at
  · simp [h, alookup_ainsert]
  · simp [h, hex]

/-- Witness for `add_conflict_resolution` on the created_at tie. -/
theorem add_conflict_resolution_witness :
    opAddTie.op_type = Sync.OpType.add ∧
      opAddTie.payload = some itemB ∧
      alookup opAddTie.target_id stateA.items = some itemA ∧
      alookup opAddTie.target_id (Sync.applyOpFull stateA opAddTie).items =
        some (if itemA.created_at ≤ itemB.created_at then itemB else itemA) :=
  ⟨rfl, rfl, by decide, add_conflict_resolution stateA opAddTie itemB itemA rfl rfl (by decide)⟩

/-- C10: the sync engine keeps no tombstones. A Delete whose target is
absent leaves the items map unchanged, and a later Add for the same id
inserts its payload even when the payload's `created_at` is older than
the delete's timestamp, resurrecting the item. -/
theorem no_tombstones_resurrection (st : Sync.SyncState) (dOp aOp : Sync.Operation)
    (item : Sync.SyncClipboardItem)
    (hd : dOp.op_type = .delete)
    (habs : alookup dOp.target_id st.items = none)
    (ha : aOp.op_type = .add)
    (hpay : aOp.payload = some item)
    (htid : aOp.target_id = dOp.target_id)
    (hold : item.created_at < dOp.timestamp) :
    (Sync.applyOpFull st dOp).items = st.items ∧
      alookup dOp.target_id (Sync.apply_operations st [dOp, aOp]).items = some item := by
  have h1 : (Sync.applyOpFull st dOp).items = st.items := by
    simp [Sync.applyOpFull, Sync.applyOpItems, hd, habs]
  refine ⟨h1, ?_⟩
  have h3 : (Sync.apply_operations st [dOp, aOp]).items =
      Sync.applyOpItems (Sync.applyOpFull st dOp).items aOp := rfl
  rw [h3, h1]
  simp only [Sync.applyOpItems, ha, hpay, htid, habs]
  simp [alookup_ainsert]

/-- Witness for `no_tombstones_resurrection`: id "b" is deleted at
timestamp 10, then an Add with payload created_at 3 resurrects it. -/
theorem no_tombstones_resurrection_witness :
    opDelB10.op_type = Sync.OpType.delete ∧
      alookup opDelB10.target_id stateA.items = none ∧
      opAddB.op_type = Sync.OpType.add ∧
      opAddB.payload = some itemC ∧
      opAddB.target_id = opDelB10.target_id ∧
      itemC.created_at < opDelB10.timestamp ∧
      (Sync.applyOpFull stateA opDelB10).items = stateA.items ∧
      alookup opDelB10.target_id (Sync.apply_operations stateA [opDelB10, opAddB]).items =
        some itemC := by
  refine ⟨rfl, by decide, rfl, rfl, rfl, by decide, ?_, ?_⟩
  · exact (no_tombstones_resurrection stateA opDelB10 opAddB itemC rfl (by decide) rfl rfl rfl
      (by decide)).1
  · exact (no_tombstones_resurrection stateA opDelB10 opAddB itemC rfl (by decide) rfl rfl rfl
      (by decide)).2

/-- C9: deleting an id absent from the index succeeds, appends a Delete
record, tombstones the id, and leaves the index and `get_all()`
unchanged; a second delete does the same with another tombstone record,
and the id never reappears in `get_all()`. -/
theorem delete_idempotent_tombstone (st : Storage.StorageEngine) (id : RStr) (ts1 ts2 : Nat)
    (h : alookup id st.index = none) :
    (Storage.delete st id ts1).index = st.index ∧
      Storage.get_all (Storage.delete st id ts1) = Storage.get_all st ∧
      alookup id (Storage.delete st id ts1).deleted_items = some ts1 ∧
      (Storage.delete st id ts1).log = st.log ++ [⟨.delete, ts1, id, none⟩] ∧
      (Storage.delete (Storage.delete st id ts1) id ts2).index = st.index ∧
      Storage.get_all (Storage.delete (Storage.delete st id ts1) id ts2) = Storage.get_all st ∧
      alookup id (Storage.delete (Storage.delete st id ts1) id ts2).deleted_items = some ts2 ∧
      (Storage.delete (Storage.delete st id ts1) id ts2).log =
        st.log ++ [⟨.delete, ts1, id, none⟩] ++ [⟨.delete, ts2, id, none⟩] := by
  have hidx : (Storage.delete st id ts1).index = st.index := by
    simp [Storage.delete, aremove_of_absent id st.index h]
  have hidx2 : (Storage.delete (Storage.delete st id ts1) id ts2).index = st.index := by
    simp [Storage.delete, hidx, aremove_of_absent id st.index h]
  have hget : ∀ st' : Storage.StorageEngine, st'.index = st.index →
      Storage.get_all st' = Storage.get_all st := by
    intro st' hs
    simp [Storage.get_all, hs]
  refine ⟨hidx, hget _ hidx, ?_, rfl, hidx2, hget _ hidx2, ?_, rfl⟩
  · simp [Storage.delete, alookup_ainsert]
  · simp [Storage.delete, alookup_ainsert]

/-- Witness for `delete_idempotent_tombstone`: deleting the unknown id
"z" twice from a two-item engine. -/
theorem delete_idempotent_tombstone_witness :
    alookup [122] engineTwo.index = none ∧
      (Storage.delete engineTwo [122] 4).index = engineTwo.index ∧
      Storage.get_all (Storage.delete (Storage.delete engineTwo [122] 4) [122] 5) =
        Storage.get_all engineTwo ∧
      alookup [122] (Storage.delete (Storage.delete engineTwo [122] 4) [122] 5).deleted_items =
        some 5 := by
  have h := delete_idempotent_tombstone engineTwo [122] 4 5 (by decide)
  exact ⟨by decide, h.1, h.2.2.2.2.2.1, h.2.2.2.2.2.2.1⟩

/-- C7: `compact()` preserves observable state and normalizes the log:
`get_all()` is unchanged, the tombstone set is cleared, and the new log
is exactly one Insert record (with payload) per live id, with no Delete
records. Hypotheses: the index's keys are unique and each entry is
keyed by its item's id (both invariants of the running engine). -/
theorem compact_preserves_state (st : Storage.StorageEngine)
    (hnd : (st.index.map Prod.fst).Nodup)
    (hkeys : ∀ p ∈ st.index, p.1 = p.2.id) :
    Storage.get_all (Storage.compact st) = Storage.get_all st ∧
      (Storage.compact st).deleted_items = [] ∧
      (∀ r ∈ (Storage.compact st).log,
        r.operation = Storage.Operation.insert ∧ r.data.isSome = true) ∧
      (Storage.compact st).log.map Storage.StorageRecord.item_id = st.index.map Prod.fst ∧
      ((Storage.compact st).log.map Storage.StorageRecord.item_id).Nodup := by
  have hmap : (Storage.compact st).log.map Storage.StorageRecord.item_id =
      st.index.map Prod.fst := by
    simp only [Storage.compact, List.map_map]
    exact List.map_congr_left fun p hp => ((hkeys p hp).symm : p.2.id = p.1)
  refine ⟨rfl, rfl, ?_, hmap, hmap ▸ hnd⟩
  intro r hr
  simp only [Storage.compact, List.mem_map] at hr
  obtain ⟨p, _, hp⟩ := hr
  subst hp
  exact ⟨rfl, rfl⟩

/-- Witness for `compact_preserves_state` on a two-item engine with a
stale tombstone. -/
theorem compact_preserves_state_witness :
    Storage.get_all (Storage.compact engineTwo) = Storage.get_all engineTwo ∧
      (Storage.compact engineTwo).deleted_items = [] ∧
      (Storage.compact engineTwo).log.map Storage.StorageRecord.item_id =
        engineTwo.index.map Prod.fst ∧
      ((Storage.compact engineTwo).log.map Storage.StorageRecord.item_id).Nodup := by
  have h := compact_preserves_state engineTwo (by decide) (by decide)
  exact ⟨h.1, h.2.1, h.2.2.2.1, h.2.2.2.2⟩

/-- Replaying a log extended by one record is one `recStep`. -/
theorem recover_records_append (recs : List Storage.StorageRecord) (r : Storage.StorageRecord) :
    Storage.recover_records (recs ++ [r]) = Storage.recStep (Storage.recover_records recs) r := by
  simp [Storage.recover_records, List.foldl_append]

/-- Invariant carried through a call sequence: if replaying the log
reproduces the runtime index and tombstone map (pointwise), and no
insert call reuses a currently tombstoned id, the same holds after
running the calls. -/
theorem recover_runtime_inv (cs : List Storage.StCall) (st : Storage.StorageEngine)
    (h1 : ∀ id, alookup id (Storage.recover_records st.log).1 = alookup id st.index)
    (h2 : ∀ id, alookup id (Storage.recover_records st.log).2 = alookup id st.deleted_items)
    (hok : Storage.okFrom st cs = true) :
    (∀ id, alookup id (Storage.recover_records (Storage.runCalls st cs).log).1 =
        alookup id (Storage.runCalls st cs).index) ∧
      (∀ id, alookup id (Storage.recover_records (Storage.runCalls st cs).log).2 =
        alookup id (Storage.runCalls st cs).deleted_items) := by
  induction cs generalizing st with
  | nil => exact ⟨h1, h2⟩
  | cons c rest ih =>
    cases c with
    | ins item ts =>
      simp only [Storage.okFrom, Bool.and_eq_true, decide_eq_true_eq] at hok
      obtain ⟨hdel, hok'⟩ := hok
      have hstep : Storage.runCalls st (.ins item ts :: rest) =
          Storage.runCalls (Storage.insert st item ts) rest := rfl
      rw [hstep]
      refine ih (Storage.insert st item ts) ?_ ?_ hok'
      · intro id
        have hlog : (Storage.insert st item ts).log =
            st.log ++ [⟨.insert, ts, item.id, some item⟩] := rfl
        rw [hlog, recover_records_append]
        have hnd : alookup item.id (Storage.recover_records st.log).2 = none := by
          rw [h2]; exact hdel
        simp only [Storage.recStep, hnd]
        simp only [Storage.insert, alookup_ainsert]
        by_cases hid : item.id = id
        · simp [hid, alookup_ainsert]
        · simp [hid, alookup_ainsert, h1 id]
      · intro id
        have hlog : (Storage.insert st item ts).log =
            st.log ++ [⟨.insert, ts, item.id, some item⟩] := rfl
        rw [hlog, recover_records_append]
        have hnd : alookup item.id (Storage.recover_records st.log).2 = none := by
          rw [h2]; exact hdel
        simp only [Storage.recStep, hnd]
        simp only [Storage.insert, alookup_aremove]
        by_cases hid : item.id = id
        · subst hid
          simp [hnd]
        · simp [hid, h2 id]
    | del id0 ts =>
      simp only [Storage.okFrom] at hok
      have hstep : Storage.runCalls st (.del id0 ts :: rest) =
          Storage.runCalls (Storage.delete st id0 ts) rest := rfl
      rw [hstep]
      refine ih (Storage.delete st id0 ts) ?_ ?_ hok
      · intro id
        have hlog : (Storage.delete st id0 ts).log =
            st.log ++ [⟨.delete, ts, id0, none⟩] := rfl
        rw [hlog, recover_records_append]
        simp only [Storage.recStep, Storage.delete, alookup_aremove]
        by_cases hid : id0 = id
        · simp [hid]
        · simp [hid, h1 id]
      · intro id
        have hlog : (Storage.delete st id0 ts).log =
            st.log ++ [⟨.delete, ts, id0, none⟩] := rfl
        rw [hlog, recover_records_append]
        simp only [Storage.recStep, Storage.delete, alookup_ainsert]
        by_cases hid : id0 = id
        · simp [hid]
        · simp [hid, h2 id]

/-- C4 counterexample: for the call sequence insert "a", delete "a",
insert "a", the runtime index holds "a" at close, but replaying the
produced log leaves "a" absent (recovery skips the re-insert because
the id is tombstoned). -/
theorem recover_skips_reinsert_after_delete :
    alookup [97] (Storage.runCalls emptyEngine callsReinsert).index = some cItem3 ∧
      alookup [97] (Storage.recover_records (Storage.runCalls emptyEngine callsReinsert).log).1 =
        none := by
  exact ⟨by decide, by decide⟩

/-- C4 amended: replaying the log reproduces the runtime index for
every call sequence from a fresh engine in which no insert call reuses
an id that is tombstoned at that moment; an Insert record after a
Delete record for the same id is skipped by recovery and leaves the id
deleted, unlike the corresponding runtime insert. -/
theorem recover_matches_runtime (cs : List Storage.StCall)
    (hok : Storage.okFrom emptyEngine cs = true) (id : RStr) :
    alookup id (Storage.recover_records (Storage.runCalls emptyEngine cs).log).1 =
      alookup id (Storage.runCalls emptyEngine cs).index :=
  (recover_runtime_inv cs emptyEngine (fun _ => rfl) (fun _ => rfl) hok).1 id

/-- Witness for `recover_matches_runtime`: insert "a", insert "b",
delete "a" never reuses a deleted id; replay agrees on both ids. -/
theorem recover_matches_runtime_witness :
    Storage.okFrom emptyEngine callsOk = true ∧
      alookup [97] (Storage.recover_records (Storage.runCalls emptyEngine callsOk).log).1 =
        alookup [97] (Storage.runCalls emptyEngine callsOk).index ∧
      alookup [98] (Storage.recover_records (Storage.runCalls emptyEngine callsOk).log).1 =
        alookup [98] (Storage.runCalls emptyEngine callsOk).index :=
  ⟨by decide, recover_matches_runtime callsOk (by decide) [97],
    recover_matches_runtime callsOk (by decide) [98]⟩

/-- The strict `(timestamp, device_id)` key order is asymmetric. -/
theorem keyLt_asymm (a b : Sync.Operation) (hab : Sync.keyLt a b) (hba : Sync.keyLt b a) :
    False := by
  rcases hab with h1 | ⟨h1, h1d⟩ <;> rcases hba with h2 | ⟨h2, h2d⟩
  · exact absurd h2 (not_lt.mpr (le_of_lt h1))
  · exact absurd h2 (ne_of_gt h1)
  · exact absurd h1 (ne_of_gt h2)
  · exact bytesLt_asymm _ _ h1d h2d

/-- Under `keyLe` plus pairwise-distinct keys the order is strict. -/
theorem keyLe_ne_keyLt (a b : Sync.Operation) (hle : Sync.keyLe a b)
    (hne : ¬(a.timestamp = b.timestamp ∧ a.device_id = b.device_id)) : Sync.keyLt a b := by
  rcases hle with h | ⟨heq, hd | hd⟩
  · exact Or.inl h
  · exact absurd ⟨heq, hd⟩ hne
  · exact Or.inr ⟨heq, hd⟩

/-- C1 counterexample: `opColl1` and `opColl2` share the sort key
`(0, "d")`, both orders of the two-element multiset are sorted by
`(timestamp, device_id)`, yet the two applications disagree on the
final items map. -/
theorem lww_sorted_apply_order_dependent :
    List.Perm [opColl1, opColl2] [opColl2, opColl1] ∧
      Sync.sortedOps [opColl1, opColl2] ∧
      Sync.sortedOps [opColl2, opColl1] ∧
      alookup [116] (Sync.apply_operations emptySyncState [opColl1, opColl2]).items ≠
        alookup [116] (Sync.apply_operations emptySyncState [opColl2, opColl1]).items := by
  refine ⟨by decide, by decide, by decide, by decide⟩

/-- C1 amended: LWW application is deterministic for batches whose
`(timestamp, device_id)` keys are pairwise distinct: any two sorted
arrangements of the same multiset of operations are the same list, so
`apply_operations` yields the same final state (items map included). -/
theorem lww_sorted_apply_deterministic (st : Sync.SyncState) (l1 l2 : List Sync.Operation)
    (hp : List.Perm l1 l2)
    (hs1 : Sync.sortedOps l1)
    (hs2 : Sync.sortedOps l2)
    (hd : Sync.distinctKeys l1) :
    Sync.apply_operations st l1 = Sync.apply_operations st l2 := by
  have hd2 : Sync.distinctKeys l2 :=
    (List.Perm.pairwise_iff (fun h hc => h ⟨hc.1.symm, hc.2.symm⟩) hp).mp hd
  have hlt1 : l1.Pairwise Sync.keyLt := by
    have := hs1.and hd
    exact this.imp fun h => keyLe_ne_keyLt _ _ h.1 h.2
  have hlt2 : l2.Pairwise Sync.keyLt := by
    have := hs2.and hd2
    exact this.imp fun h => keyLe_ne_keyLt _ _ h.1 h.2
  haveI : IsAntisymm Sync.Operation Sync.keyLt :=
    ⟨fun a b hab hba => absurd (keyLt_asymm a b hab hba) not_false⟩
  have heq : l1 = l2 := List.eq_of_perm_of_sorted hp hlt1 hlt2
  rw [heq]

/-- Witness for `lww_sorted_apply_deterministic` on a two-op batch with
distinct keys. -/
theorem lww_sorted_apply_deterministic_witness :
    List.Perm [opT1, opT2] [opT1, opT2] ∧
      Sync.sortedOps [opT1, opT2] ∧
      Sync.distinctKeys [opT1, opT2] ∧
      Sync.apply_operations emptySyncState [opT1, opT2] =
        Sync.apply_operations emptySyncState [opT1, opT2] :=
  ⟨by decide, by decide, by decide,
    lww_sorted_apply_deterministic emptySyncState [opT1, opT2] [opT1, opT2] (by decide)
      (by decide) (by decide) (by decide)⟩

/-- Applying a batch never clears an already-set watermark. -/
theorem apply_operations_keeps_watermark (st : Sync.SyncState) (ops : List Sync.Operation)
    (h : st.last_sync_timestamp ≠ none) :
    (Sync.apply_operations st ops).last_sync_timestamp ≠ none := by
  induction ops generalizing st with
  | nil => exact h
  | cons op rest ih =>
    have hstep : Sync.apply_operations st (op :: rest) =
        Sync.apply_operations (Sync.applyOpFull st op) rest := rfl
    rw [hstep]
    refine ih _ ?_
    simp only [Sync.applyOpFull, Sync.bumpTs]
    cases hl : st.last_sync_timestamp with
    | none => exact absurd hl h
    | some t =>
      by_cases hcmp : t < op.timestamp <;> simp [hcmp]

/-- An incremental sync never clears an already-set watermark. -/
theorem incremental_sync_keeps_watermark (remote : Sync.Remote) (st : Sync.SyncState)
    (h : st.last_sync_timestamp ≠ none) :
    (Sync.incremental_sync remote st).last_sync_timestamp ≠ none := by
  unfold Sync.incremental_sync
  by_cases he : (Sync.fetch_operations_since remote.oplog st.last_sync_timestamp).isEmpty
  · simpa [he] using h
  · simpa [he] using apply_operations_keeps_watermark st _ h

/-- C8 counterexample: against an empty remote (no snapshot, no ops)
the first `sync()` leaves the watermark unset, so the second `sync()`
also takes the initial path and reads `snapshots/latest.json` again. -/
theorem sync_reloads_snapshot_when_unsynced :
    (Sync.sync remoteEmpty emptySyncState).2 = true ∧
      (Sync.sync remoteEmpty (Sync.sync remoteEmpty emptySyncState).1).2 = true := by
  exact ⟨by decide, by decide⟩

/-- C8 amended: a `sync()` call reads `snapshots/latest.json` exactly
when `last_sync_timestamp` is `None` at the start of the call, and a
set watermark is never cleared, so once some call has set it (via a
found snapshot or a non-empty op batch) every later call consults only
the oplog. -/
theorem sync_snapshot_read_iff_unsynced (remote : Sync.Remote) (st : Sync.SyncState) :
    ((Sync.sync remote st).2 = true ↔ st.last_sync_timestamp = none) ∧
      (st.last_sync_timestamp ≠ none →
        (Sync.sync remote st).1.last_sync_timestamp ≠ none) := by
  constructor
  · unfold Sync.sync
    by_cases h : st.last_sync_timestamp = none <;> simp [h]
  · intro h
    unfold Sync.sync
    rw [if_neg h]
    exact incremental_sync_keeps_watermark remote st h

/-- Witness for `sync_snapshot_read_iff_unsynced`: a state whose
watermark is already set does not read the snapshot, and keeps a set
watermark. -/
theorem sync_snapshot_read_iff_unsynced_witness :
    (Sync.sync remoteEmpty stateSynced).2 = false ∧
      (Sync.sync remoteEmpty stateSynced).1.last_sync_timestamp ≠ none := by
  have h := sync_snapshot_read_iff_unsynced remoteEmpty stateSynced
  constructor
  · cases hb : (Sync.sync remoteEmpty stateSynced).2
    · rfl
    · exact absurd (h.1.mp hb) (by decide)
  · exact h.2 (by decide)

/-- Reading `w` bytes from an encoded `w`-byte field returns the field
and the remaining bytes. -/
theorem takeN_encodeLe (m w : Nat) (x : List Nat) :
    takeN w (encodeLe m w ++ x) = some (encodeLe m w, x) := by
  have h := takeN_append (encodeLe m w) x
  rwa [encodeLe_length] at h

/-- C6: encode-then-decode round-trip of the record codec. For any
payload (de)serializer pair that round-trips on the record's payload
(as `serde_json` does), any record whose `timestamp` fits in a `u64`,
whose id is valid UTF-8 shorter than `2 ^ 32` bytes, and whose payload
(when present) serializes to a non-empty JSON string shorter than
`2 ^ 32` bytes, `read_record` run on `write_record`'s output returns
the identical record (every field equal) and the trailing bytes. -/
theorem record_round_trip (jser : Storage.ClipboardItem → List Nat)
    (jdes : List Nat → Option Storage.ClipboardItem)
    (r : Storage.StorageRecord) (rest : List Nat)
    (hts : r.timestamp < 2 ^ 64)
    (hid32 : r.item_id.length < 2 ^ 32)
    (hidutf : utf8Valid r.item_id = true)
    (hdata : ∀ d, r.data = some d →
      0 < (jser d).length ∧ (jser d).length < 2 ^ 32 ∧ utf8Valid (jser d) = true ∧
        jdes (jser d) = some d) :
    Storage.read_record jdes (Storage.write_record jser r ++ rest) = .ok r rest := by
  obtain ⟨op, ts, idb, dta⟩ := r
  have hts' : ts < 2 ^ (8 * 8) := by
    have e : (2 : Nat) ^ (8 * 8) = 2 ^ 64 := by norm_num
    rw [e]; exact hts
  have hid' : idb.length < 2 ^ (8 * 4) := by
    have e : (2 : Nat) ^ (8 * 4) = 2 ^ 32 := by norm_num
    rw [e]; exact hid32
  cases dta with
  | none =>
    cases op with
    | insert =>
      simp only [Storage.write_record, Storage.opTag, List.cons_append, List.append_assoc,
        Storage.read_record, takeN_encodeLe, takeN_append, decodeLe_encodeLe _ _ hts',
        decodeLe_encodeLe _ _ hid', hidutf]
      norm_num
      intro hcontra
      rw [decodeLe_encodeLe 0 4 (by positivity)] at hcontra
      exact absurd hcontra (lt_irrefl 0)
    | delete =>
      simp only [Storage.write_record, Storage.opTag, List.cons_append, List.append_assoc,
        Storage.read_record, takeN_encodeLe, takeN_append, decodeLe_encodeLe _ _ hts',
        decodeLe_encodeLe _ _ hid', hidutf]
      norm_num
      intro hcontra
      rw [decodeLe_encodeLe 0 4 (by positivity)] at hcontra
      exact absurd hcontra (lt_irrefl 0)
  | some d =>
    obtain ⟨hd0, hd32, hdutf, hdser⟩ := hdata d rfl
    have hd' : (jser d).length < 2 ^ (8 * 4) := by
      have e : (2 : Nat) ^ (8 * 4) = 2 ^ 32 := by norm_num
      rw [e]; exact hd32
    cases op with
    | insert =>
      simp only [Storage.write_record, Storage.opTag, List.cons_append, List.append_assoc,
        Storage.read_record, takeN_encodeLe, takeN_append, decodeLe_encodeLe _ _ hts',
        decodeLe_encodeLe _ _ hid', decodeLe_encodeLe _ _ hd', hidutf, hdutf, hdser, hd0]
      norm_num [hd0]
    | delete =>
      simp only [Storage.write_record, Storage.opTag, List.cons_append, List.append_assoc,
        Storage.read_record, takeN_encodeLe, takeN_append, decodeLe_encodeLe _ _ hts',
        decodeLe_encodeLe _ _ hid', decodeLe_encodeLe _ _ hd', hidutf, hdutf, hdser, hd0]
      norm_num [hd0]

/-- Witness for `record_round_trip` on a concrete Insert record with a
stub serializer pair that round-trips on its payload. -/
theorem record_round_trip_witness :
    utf8Valid recW.item_id = true ∧
      Storage.read_record jdesW (Storage.write_record jserW recW ++ [9]) =
        Storage.ReadResult.ok recW [9] := by
  refine ⟨by decide, record_round_trip jserW jdesW recW [9] (by norm_num [recW]) (by decide)
    (by decide) ?_⟩
  intro d hd
  have hd' : cItem1 = d := by
    have : (some cItem1 : Option Storage.ClipboardItem) = some d := hd
    exact Option.some.inj this
  subst hd'
  exact ⟨by decide, by decide, by decide, rfl⟩

/-- C3: the claim that recovery is total fails on the code. On a log
whose first record carries the unrecognized operation tag byte 3,
`Operation::from` hits its `panic!` arm, so `open`/`recover` aborts
instead of halting at the bad record and returning normally (modelled
as `none`). By contrast a truncated trailing record (single byte 1) is
a recoverable decode error: recovery stops there and returns the state
decoded so far, as the claim expects. -/
theorem recover_panics_on_bad_tag :
    Storage.recover (fun _ => none) [3] = none ∧
      Storage.recover (fun _ => none) [1] = some ([], []) :=
  ⟨by decide, by decide⟩
